import Mathlib

/-!
Verification development for the label-generation and baseline-aggregation
engine of the crypto-deployment-signal repository.

The Python sources embedded here are `scripts/build_labels_v1.py` and
`scripts/build_forecast_baseline_v1.py`.  Floating-point prices are modelled
as rationals; Python's `round(x, 4)` is modelled with Mathlib's `round`
(nearest integer) at scale 10^4 — Python's tie-breaking (half-to-even)
differs only on exact half-ties of the scaled value, which no claim here
depends on.  A Python `None` / empty-string "absent" value is `Option.none`;
a Python dict used as a map is a function into `Option`.
-/

/-- A candle in the compact history format `[ts_utc, open, high, low, close,
volume]` (`Candle = List[float]` in the source).  Out-of-range reads are
modelled with `List.getD _ 0`; the pipeline only reads fields of candles it
has already length-checked, so the default is never observed. -/
abbrev Candle := List ℚ

/-- Python's `int(·)` on a real number: truncation toward zero. -/
def pyInt (q : ℚ) : ℤ := if 0 ≤ q then ⌊q⌋ else -⌊-q⌋

/-- The timestamp key of a candle, `int(c[0])` in the source. -/
def tsOf (c : Candle) : ℤ := pyInt (c.getD 0 0)

/-- `round(x, 4)` from the source: round to 4 decimal places. -/
def round4 (x : ℚ) : ℚ := (round (x * 10000) : ℚ) / 10000

/-- `pct_change` from `build_labels_v1.py`: percent change of `new` against
`base`, defined as 0 when `base = 0`. -/
def pct_change (new : ℚ) (base : ℚ) : ℚ :=
  if base = 0 then 0 else (new - base) / base * 100

/-- Confirmed horizons (hours), the `HORIZONS` constant. -/
def HORIZONS : List ℕ := [12, 24, 36, 48, 60, 72, 84, 96]

/-- Confirmed thresholds (%), the `THRESHOLDS` constant. -/
def THRESHOLDS : List ℚ := [1/2, 1, 2, 3, 5]

/-- Python `max(l)` on a nonempty list (`[]` never reaches it in the
pipeline; the 0 default is junk). -/
def listMax : List ℚ → ℚ
  | [] => 0
  | x :: xs => xs.foldl max x

/-- Python `min(l)` on a nonempty list. -/
def listMin : List ℚ → ℚ
  | [] => 0
  | x :: xs => xs.foldl min x

/-- One snapshot as consumed by the labels pipeline: its `published_at_utc`
field (may be missing), the history-file path it was loaded from, and its
`candles["eth_usdt_1h"]` list. -/
structure SnapshotRec where
  pub : Option String
  file : String
  candles : List Candle

/-- One insertion step of `build_master_candle_map`: skip a candle with
fewer than 6 fields, and otherwise insert only if its timestamp key is
absent (first-seen-wins). -/
def insertCandle (m : ℤ → Option Candle) (c : Candle) : ℤ → Option Candle :=
  if c.length < 6 then m
  else if (m (tsOf c)).isSome then m
  else fun t => if t = tsOf c then some c else m t

/-- `build_master_candle_map` from `build_labels_v1.py`: fold every candle
of every snapshot (in processing order) into a `ts -> candle` map. -/
def build_master_candle_map (snaps : List SnapshotRec) : ℤ → Option Candle :=
  snaps.foldl (fun m s => s.candles.foldl insertCandle m) (fun _ => none)

/-- `get_entry_ts_and_close_from_snapshot`: the snapshot's own last candle
gives `entry_ts = int(last[0])` and `entry_close = float(last[4])`;
not-available if the candle list is empty or the last candle has fewer than
5 fields. -/
def get_entry_ts_and_close (candles : List Candle) : Option (ℤ × ℚ) :=
  match candles.getLast? with
  | none => none
  | some last =>
    if last.length < 5 then none
    else some (pyInt (last.getD 0 0), last.getD 4 0)

/-- The loop of `forward_window`, collecting candles at offsets
`k, k+1, ..., k+n-1` hours after `entry_ts`; `none` on the first gap. -/
def fwLoop (master : ℤ → Option Candle) (entry_ts : ℤ) : ℕ → ℕ → Option (List Candle)
  | _, 0 => some []
  | k, n + 1 =>
    match master (entry_ts + 3600 * (k : ℤ)) with
    | none => none
    | some c => (fwLoop master entry_ts (k + 1) n).map (fun rest => c :: rest)

/-- `forward_window` from `build_labels_v1.py`: the candles at
`entry_ts + 3600*k` for `k = 1..hours`, all-or-nothing. -/
def forward_window (master : ℤ → Option Candle) (entry_ts : ℤ) (hours : ℕ) :
    Option (List Candle) :=
  fwLoop master entry_ts 1 hours

/-- The four per-horizon continuous labels. -/
structure ContLabels where
  max_up_pct : ℚ
  max_down_pct : ℚ
  close_change_pct : ℚ
  range_pct : ℚ
deriving DecidableEq

/-- `compute_continuous_labels` from `build_labels_v1.py`. -/
def compute_continuous_labels (entry_close : ℚ) (fwd : List Candle) : ContLabels :=
  let highs := fwd.map (fun c => c.getD 2 0)
  let lows := fwd.map (fun c => c.getD 3 0)
  let closes := fwd.map (fun c => c.getD 4 0)
  { max_up_pct := round4 (pct_change (listMax highs) entry_close)
    max_down_pct := round4 (pct_change (listMin lows) entry_close)
    close_change_pct := round4 (pct_change (closes.getLastD 0) entry_close)
    range_pct := round4 (if entry_close = 0 then 0
      else (listMax highs - listMin lows) / entry_close * 100) }

/-- The running-extremum scan of `compute_time_to_hit_and_mdd`: starting
from `cur`, emit the running `f`-fold at every position. -/
def runningScan (f : ℚ → ℚ → ℚ) : ℚ → List ℚ → List ℚ
  | _, [] => []
  | cur, x :: xs => f cur x :: runningScan f (f cur x) xs

/-- `running_min_low`: the prefix minima of the lows.  The source starts
from `float("inf")`, so on a nonempty list the first entry is the first low. -/
def running_min_low (lows : List ℚ) : List ℚ :=
  match lows with
  | [] => []
  | x :: xs => x :: runningScan min x xs

/-- `running_max_high`: the prefix maxima of the highs (source starts from
`-float("inf")`). -/
def running_max_high (highs : List ℚ) : List ℚ :=
  match highs with
  | [] => []
  | x :: xs => x :: runningScan max x xs

/-- The `enumerate`-and-`break` search of `compute_time_to_hit_and_mdd`:
the first 1-indexed position whose value is `≥ target`. -/
def firstIdxGe (target : ℚ) : List ℚ → Option ℕ
  | [] => none
  | x :: xs => if target ≤ x then some 1 else (firstIdxGe target xs).map (· + 1)

/-- First 1-indexed position whose value is `≤ target`. -/
def firstIdxLe (target : ℚ) : List ℚ → Option ℕ
  | [] => none
  | x :: xs => if x ≤ target then some 1 else (firstIdxLe target xs).map (· + 1)

/-- The lows of a window, `[c[3] for c in fwd]`. -/
def lowsOf (fwd : List Candle) : List ℚ := fwd.map (fun c => c.getD 3 0)

/-- The highs of a window, `[c[2] for c in fwd]`. -/
def highsOf (fwd : List Candle) : List ℚ := fwd.map (fun c => c.getD 2 0)

/-- `t_hit_up_{thr}` of `compute_time_to_hit_and_mdd`: earliest hour at
which the running max of highs reaches `entry_close * (1 + thr/100)`;
absent (empty string in the CSV) when never reached. -/
def t_hit_up (entry_close : ℚ) (fwd96 : List Candle) (thr : ℚ) : Option ℕ :=
  firstIdxGe (entry_close * (1 + thr / 100)) (running_max_high (highsOf fwd96))

/-- `t_hit_down_{thr}`: earliest hour at which the running min of lows
reaches `entry_close * (1 - thr/100)`. -/
def t_hit_down (entry_close : ℚ) (fwd96 : List Candle) (thr : ℚ) : Option ℕ :=
  firstIdxLe (entry_close * (1 - thr / 100)) (running_min_low (lowsOf fwd96))

/-- `mdd_before_hit_up_{thr}`: when the upside hit exists at hour `t`, the
percent change (from entry) of `min(running_min_low[:t])`, rounded to 4
places, then clamped to `≤ 0` by `min(0.0, ·)`; absent when there is no
upside hit. -/
def mdd_before_hit_up (entry_close : ℚ) (fwd96 : List Candle) (thr : ℚ) : Option ℚ :=
  match t_hit_up entry_close fwd96 thr with
  | none => none
  | some t =>
    some (min 0 (round4 (pct_change (listMin ((running_min_low (lowsOf fwd96)).take t))
      entry_close)))

/-- The per-threshold outputs of `compute_time_to_hit_and_mdd`. -/
structure HitLabels where
  hitUp : Option ℕ
  hitDown : Option ℕ
  mddBeforeUp : Option ℚ
deriving DecidableEq

/-- One ledger row as computed by `main` of `build_labels_v1.py` (the
numeric payload; the bookkeeping columns are carried by the run loop). -/
structure LabelRow where
  entry_ts : ℤ
  entry_close : ℚ
  cont : List (ℕ × ContLabels)
  hits : List (ℚ × HitLabels)

/-- The per-snapshot body of `main`'s loop, after the duplicate-key check:
resolve the entry point, stitch the full 96-hour forward window (skip the
snapshot entirely when either fails), then compute every label. -/
def label_row_for_snapshot (master : ℤ → Option Candle) (candles : List Candle) :
    Option LabelRow :=
  match get_entry_ts_and_close candles with
  | none => none
  | some (ts, ec) =>
    match forward_window master ts 96 with
    | none => none
    | some fwd96 =>
      some { entry_ts := ts
             entry_close := ec
             cont := HORIZONS.map (fun h => (h, compute_continuous_labels ec (fwd96.take h)))
             hits := THRESHOLDS.map (fun thr =>
               (thr, { hitUp := t_hit_up ec fwd96 thr
                       hitDown := t_hit_down ec fwd96 thr
                       mddBeforeUp := mdd_before_hit_up ec fwd96 thr })) }

/-- `main`'s snapshot loop: returns (rows appended in order, duplicate-key
skip count, missing-entry/missing-window skip count). -/
def run_main (master : ℤ → Option Candle) (existing : List (Option String × String)) :
    List SnapshotRec → List LabelRow × ℕ × ℕ
  | [] => ([], 0, 0)
  | s :: rest =>
    if (s.pub, s.file) ∈ existing then
      let r := run_main master existing rest
      (r.1, r.2.1 + 1, r.2.2)
    else
      match label_row_for_snapshot master s.candles with
      | none =>
        let r := run_main master existing rest
        (r.1, r.2.1, r.2.2 + 1)
      | some row =>
        let r := run_main master existing rest
        (row :: r.1, r.2.1, r.2.2)

/-- The hit test of the baseline aggregator's inner loop
(`build_forecast_baseline_v1.py`): a row whose `t_hit_up` column is present
counts as a hit at horizon `h` when its parsed value is `≤ h`.  `parse`
stands for the script's `to_int` (Python `int(float(s))`, `None` on
failure); the row is `none` when the column is missing from the row
entirely. -/
def hit_pred (parse : String → Option ℤ) (h : ℕ) (r : Option String) : Bool :=
  match r with
  | none => false
  | some s =>
    match parse s with
    | none => false
    | some t => decide (t ≤ (h : ℤ))

/-- `n_total` of the aggregator: rows that carry the threshold's
`t_hit_up` column at all (the horizon plays no part). -/
def n_total_agg (rows : List (Option String)) : ℕ :=
  (rows.filter (fun r => r.isSome)).length

/-- `n_hit` of the aggregator at horizon `h`. -/
def n_hit_agg (parse : String → Option ℤ) (rows : List (Option String)) (h : ℕ) : ℕ :=
  (rows.filter (hit_pred parse h)).length

/-- `p_hit = (n_hit / n_total) if n_total else 0.0`. -/
def p_hit_agg (parse : String → Option ℤ) (rows : List (Option String)) (h : ℕ) : ℚ :=
  if n_total_agg rows = 0 then 0
  else (n_hit_agg parse rows h : ℚ) / (n_total_agg rows : ℚ)

/-- `quantile` from `build_forecast_baseline_v1.py`: linear-interpolation
order statistic on an already-sorted list.  `lo = int(pos)` is Python
truncation (`pyInt`); out-of-range reads (unreachable for `q ∈ [0,1]`)
are modelled with `getD _ 0`. -/
def quantile (sorted_vals : List ℚ) (q : ℚ) : Option ℚ :=
  if sorted_vals = [] then none
  else if sorted_vals.length = 1 then some (sorted_vals.getD 0 0)
  else
    let pos := ((sorted_vals.length : ℚ) - 1) * q
    let lo := pyInt pos
    let hi := min (lo + 1) ((sorted_vals.length : ℤ) - 1)
    let frac := pos - (lo : ℚ)
    some (sorted_vals.getD lo.toNat 0 * (1 - frac) + sorted_vals.getD hi.toNat 0 * frac)

/-- Modelled from the spec's words for the refinement check of the quantile
contract: position `p = q*(n-1)`, `lo = floor(p)`, `hi = min(lo+1, n-1)`,
`frac = p - lo`, result `v[lo]*(1-frac) + v[hi]*frac`; the single element
for every `q` on a one-element list; absent on the empty list. -/
def quantileSpec (v : List ℚ) (q : ℚ) : Option ℚ :=
  if v = [] then none
  else if v.length = 1 then some (v.getD 0 0)
  else
    let p := ((v.length : ℚ) - 1) * q
    let lo := ⌊p⌋
    let hi := min (lo + 1) ((v.length : ℤ) - 1)
    let frac := p - (lo : ℚ)
    some (v.getD lo.toNat 0 * (1 - frac) + v.getD hi.toNat 0 * frac)

/-- A concrete 96-hour window: 12 hours with high/close 1, then 84 hours
with high/close 2 (all lows 0). -/
def flatThenJumpWindow : List Candle :=
  List.replicate 12 [0, 0, 1, 0, 1, 0] ++ List.replicate 84 [0, 0, 2, 0, 2, 0]

/-! ## Helper lemmas -/

lemma round4_mono {x y : ℚ} (h : x ≤ y) : round4 x ≤ round4 y := by
  unfold round4
  have hr : round (x * 10000) ≤ round (y * 10000) := by
    rw [round_eq, round_eq]
    exact Int.floor_le_floor (by linarith)
  have hq : ((round (x * 10000) : ℤ) : ℚ) ≤ ((round (y * 10000) : ℤ) : ℚ) := by
    exact_mod_cast hr
  linarith

lemma round4_zero : round4 0 = 0 := by
  simp [round4]

lemma pct_change_mono {base x y : ℚ} (hb : 0 ≤ base) (h : x ≤ y) :
    pct_change x base ≤ pct_change y base := by
  unfold pct_change
  by_cases h0 : base = 0
  · simp [h0]
  · have hpos : 0 < base := lt_of_le_of_ne hb (Ne.symm h0)
    rw [if_neg h0, if_neg h0]
    have : (x - base) / base ≤ (y - base) / base :=
      (div_le_div_iff_of_pos_right hpos).mpr (by linarith)
    linarith

lemma foldl_max_init_le (l : List ℚ) : ∀ a : ℚ, a ≤ l.foldl max a := by
  induction l with
  | nil => intro a; simp
  | cons x xs ih =>
    intro a
    calc a ≤ max a x := le_max_left a x
    _ ≤ xs.foldl max (max a x) := ih (max a x)

lemma foldl_min_le_init (l : List ℚ) : ∀ a : ℚ, l.foldl min a ≤ a := by
  induction l with
  | nil => intro a; simp
  | cons x xs ih =>
    intro a
    calc xs.foldl min (min a x) ≤ min a x := ih (min a x)
    _ ≤ a := min_le_left a x

lemma listMax_le_append (l r : List ℚ) (hl : l ≠ []) :
    listMax l ≤ listMax (l ++ r) := by
  cases l with
  | nil => exact absurd rfl hl
  | cons x xs =>
    show listMax (x :: xs) ≤ listMax (x :: (xs ++ r))
    simp only [listMax, List.foldl_append]
    exact foldl_max_init_le r (xs.foldl max x)

lemma listMin_append_le (l r : List ℚ) (hl : l ≠ []) :
    listMin (l ++ r) ≤ listMin l := by
  cases l with
  | nil => exact absurd rfl hl
  | cons x xs =>
    show listMin (x :: (xs ++ r)) ≤ listMin (x :: xs)
    simp only [listMin, List.foldl_append]
    exact foldl_min_le_init r (xs.foldl min x)

lemma listMax_take_mono (l : List ℚ) (h1 h2 : ℕ) (hle : h1 ≤ h2)
    (hne : l.take h1 ≠ []) : listMax (l.take h1) ≤ listMax (l.take h2) := by
  have hdecomp : l.take h2 = l.take h1 ++ (l.drop h1).take (h2 - h1) := by
    rw [← List.take_add l h1 (h2 - h1), Nat.add_sub_cancel' hle]
  rw [hdecomp]
  exact listMax_le_append _ _ hne

lemma listMin_take_mono (l : List ℚ) (h1 h2 : ℕ) (hle : h1 ≤ h2)
    (hne : l.take h1 ≠ []) : listMin (l.take h2) ≤ listMin (l.take h1) := by
  have hdecomp : l.take h2 = l.take h1 ++ (l.drop h1).take (h2 - h1) := by
    rw [← List.take_add l h1 (h2 - h1), Nat.add_sub_cancel' hle]
  rw [hdecomp]
  exact listMin_append_le _ _ hne

lemma firstIdxGe_mono {t1 t2 : ℚ} (h : t1 ≤ t2) :
    ∀ (l : List ℚ) (τ : ℕ), firstIdxGe t2 l = some τ →
      ∃ τ', firstIdxGe t1 l = some τ' ∧ τ' ≤ τ := by
  intro l
  induction l with
  | nil => intro τ hτ; simp [firstIdxGe] at hτ
  | cons x xs ih =>
    intro τ hτ
    by_cases hx2 : t2 ≤ x
    · have hx1 : t1 ≤ x := le_trans h hx2
      simp [firstIdxGe, hx2] at hτ
      exact ⟨1, by simp [firstIdxGe, hx1], by omega⟩
    · by_cases hx1 : t1 ≤ x
      · refine ⟨1, by simp [firstIdxGe, hx1], ?_⟩
        simp [firstIdxGe, hx2] at hτ
        obtain ⟨τ0, _, hτ0⟩ := hτ
        omega
      · simp [firstIdxGe, hx2] at hτ
        obtain ⟨τ0, hτ0, hτeq⟩ := hτ
        obtain ⟨τ', hτ', hle'⟩ := ih τ0 hτ0
        exact ⟨τ' + 1, by simp [firstIdxGe, hx1, hτ'], by omega⟩

lemma firstIdxLe_mono {d1 d2 : ℚ} (h : d2 ≤ d1) :
    ∀ (l : List ℚ) (τ : ℕ), firstIdxLe d2 l = some τ →
      ∃ τ', firstIdxLe d1 l = some τ' ∧ τ' ≤ τ := by
  intro l
  induction l with
  | nil => intro τ hτ; simp [firstIdxLe] at hτ
  | cons x xs ih =>
    intro τ hτ
    by_cases hx2 : x ≤ d2
    · have hx1 : x ≤ d1 := le_trans hx2 h
      simp [firstIdxLe, hx2] at hτ
      exact ⟨1, by simp [firstIdxLe, hx1], by omega⟩
    · by_cases hx1 : x ≤ d1
      · refine ⟨1, by simp [firstIdxLe, hx1], ?_⟩
        simp [firstIdxLe, hx2] at hτ
        obtain ⟨τ0, _, hτ0⟩ := hτ
        omega
      · simp [firstIdxLe, hx2] at hτ
        obtain ⟨τ0, hτ0, hτeq⟩ := hτ
        obtain ⟨τ', hτ', hle'⟩ := ih τ0 hτ0
        exact ⟨τ' + 1, by simp [firstIdxLe, hx1, hτ'], by omega⟩

/-! ## Claim theorems -/

/-- C2: for every `entry_close` and full forward window, for each threshold:
when `t_hit_up` is present at hour `τ`, `mdd_before_hit_up` equals the
minimum of the running-minimum-of-lows over hours `1..τ` converted to
percent change from entry, rounded to 4 places and clamped to `≤ 0`; when
`t_hit_up` is absent, `mdd_before_hit_up` is absent; hence every present
value is `≤ 0`. -/
theorem mdd_clamped_and_gated (ec : ℚ) (fwd96 : List Candle) (thr : ℚ) :
    (∀ τ : ℕ, t_hit_up ec fwd96 thr = some τ →
      mdd_before_hit_up ec fwd96 thr =
        some (min 0 (round4 (pct_change
          (listMin ((running_min_low (lowsOf fwd96)).take τ)) ec))))
    ∧ (t_hit_up ec fwd96 thr = none → mdd_before_hit_up ec fwd96 thr = none)
    ∧ (∀ v : ℚ, mdd_before_hit_up ec fwd96 thr = some v → v ≤ 0) := by
  refine ⟨?_, ?_, ?_⟩
  · intro τ hτ
    simp [mdd_before_hit_up, hτ]
  · intro hnone
    simp [mdd_before_hit_up, hnone]
  · intro v hv
    unfold mdd_before_hit_up at hv
    cases h : t_hit_up ec fwd96 thr with
    | none => rw [h] at hv; simp at hv
    | some t =>
      rw [h] at hv
      simp at hv
      rw [← hv]
      exact min_le_left _ _

/-- Witness for C2 at a concrete window: threshold 2% is hit at hour 1, so
the drawdown equals the clamped rounded percent change of the hour-1 low. -/
theorem mdd_clamped_and_gated_witness :
    mdd_before_hit_up 100 [[0, 100, 103, 99, 100, 0]] 2 =
      some (min 0 (round4 (pct_change
        (listMin ((running_min_low (lowsOf [[0, 100, 103, 99, 100, 0]])).take 1)) 100))) :=
  (mdd_clamped_and_gated 100 [[0, 100, 103, 99, 100, 0]] 2).1 1
    (by norm_num [t_hit_up, highsOf, running_max_high, runningScan, firstIdxGe])

/-- C9: with a zero entry price, `pct_change` is identically zero and every
continuous metric of the row is exactly 0 — the division never raises. -/
theorem zero_entry_close_defined (fwd : List Candle) (hne : fwd ≠ []) :
    (∀ x : ℚ, pct_change x 0 = 0)
    ∧ compute_continuous_labels 0 fwd =
        { max_up_pct := 0, max_down_pct := 0, close_change_pct := 0, range_pct := 0 } := by
  constructor
  · intro x; simp [pct_change]
  · simp [compute_continuous_labels, pct_change, round4]

/-- Witness for C9 on a one-bar window. -/
theorem zero_entry_close_defined_witness :
    compute_continuous_labels 0 [[0, 100, 103, 99, 100, 0]] =
      { max_up_pct := 0, max_down_pct := 0, close_change_pct := 0, range_pct := 0 } :=
  (zero_entry_close_defined [[0, 100, 103, 99, 100, 0]] (by simp)).2

/-- C5: the quantile function is absent on the empty list, the element
itself on a one-element list for every `q`, and otherwise agrees with the
spec's floor-based linear-interpolation formula for every `q ∈ [0,1]`;
`quantile [1,2,3,4] 0.5 = 2.5`. -/
theorem quantile_matches_spec (v : List ℚ) (q : ℚ) (h0 : 0 ≤ q) (h1 : q ≤ 1) :
    quantile [] q = none
    ∧ (∀ x : ℚ, quantile [x] q = some x)
    ∧ quantile v q = quantileSpec v q
    ∧ quantile [5] q = some 5
    ∧ quantile [1, 2, 3, 4] (1/2) = some (5/2) := by
  have hq4 : quantile [1, 2, 3, 4] (1/2) = some (5/2) := by
    have hfl : pyInt ((3:ℚ)/2) = 1 := by norm_num [pyInt]
    norm_num [quantile, hfl, show Int.toNat 2 = 2 from rfl]
    intro h
    simp at h
  refine ⟨rfl, ?_, ?_, ?_, hq4⟩
  · intro x; simp [quantile]
  · by_cases hv : v = []
    · subst hv; rfl
    · by_cases hl : v.length = 1
      · simp [quantile, quantileSpec, hv, hl]
      · have hlen : 1 ≤ v.length := by
          cases v with
          | nil => exact absurd rfl hv
          | cons a l => simp
        have hpos : (0 : ℚ) ≤ ((v.length : ℚ) - 1) * q := by
          apply mul_nonneg _ h0
          have : (1 : ℚ) ≤ (v.length : ℚ) := by exact_mod_cast hlen
          linarith
        simp only [quantile, quantileSpec, if_neg hv, if_neg hl, pyInt, if_pos hpos]
  · simp [quantile]

/-- Witness for C5 at `v = [1,2,3,4]`, `q = 1/2`. -/
theorem quantile_matches_spec_witness :
    quantile [1, 2, 3, 4] (1/2) = quantileSpec [1, 2, 3, 4] (1/2) :=
  (quantile_matches_spec [1, 2, 3, 4] (1/2) (by norm_num) (by norm_num)).2.2.1

/-- C10: with a nonnegative entry price, for configured thresholds
`t1 ≤ t2`, a present upside hit time at `t2` forces a present upside hit
time at `t1` that is no later, and symmetrically for downside hits. -/
theorem hit_times_monotone_in_threshold (ec : ℚ) (fwd96 : List Candle) (t1 t2 : ℚ)
    (hm1 : t1 ∈ THRESHOLDS) (hm2 : t2 ∈ THRESHOLDS) (hle : t1 ≤ t2) (hec : 0 ≤ ec) :
    (∀ τ : ℕ, t_hit_up ec fwd96 t2 = some τ →
      ∃ τ', t_hit_up ec fwd96 t1 = some τ' ∧ τ' ≤ τ)
    ∧ (∀ τ : ℕ, t_hit_down ec fwd96 t2 = some τ →
      ∃ τ', t_hit_down ec fwd96 t1 = some τ' ∧ τ' ≤ τ) := by
  constructor
  · intro τ hτ
    have htarget : ec * (1 + t1 / 100) ≤ ec * (1 + t2 / 100) :=
      mul_le_mul_of_nonneg_left (by linarith) hec
    exact firstIdxGe_mono htarget _ τ hτ
  · intro τ hτ
    have htarget : ec * (1 - t2 / 100) ≤ ec * (1 - t1 / 100) :=
      mul_le_mul_of_nonneg_left (by linarith) hec
    exact firstIdxLe_mono htarget _ τ hτ

/-- Witness for C10: the 2% hit at hour 1 of a concrete window forces a 1%
hit no later than hour 1. -/
theorem hit_times_monotone_in_threshold_witness :
    ∃ τ', t_hit_up 100 [[0, 100, 103, 99, 100, 0]] 1 = some τ' ∧ τ' ≤ 1 :=
  (hit_times_monotone_in_threshold 100 [[0, 100, 103, 99, 100, 0]] 1 2
    (by norm_num [THRESHOLDS]) (by norm_num [THRESHOLDS]) (by norm_num) (by norm_num)).1 1
    (by norm_num [t_hit_up, highsOf, running_max_high, runningScan, firstIdxGe])

lemma fwLoop_all_present (m : ℤ → Option Candle) (ts : ℤ) :
    ∀ (n k : ℕ), (∀ j : ℕ, k ≤ j → j < k + n → (m (ts + 3600 * (j : ℤ))).isSome) →
      fwLoop m ts k n =
        some ((List.range' k n).map fun j => (m (ts + 3600 * (j : ℤ))).getD []) := by
  intro n
  induction n with
  | zero => intro k _; simp [fwLoop]
  | succ n ih =>
    intro k h
    have hk : (m (ts + 3600 * (k : ℤ))).isSome := h k le_rfl (by omega)
    obtain ⟨c, hc⟩ := Option.isSome_iff_exists.mp hk
    have hrest := ih (k + 1) (fun j hj1 hj2 => h j (by omega) (by omega))
    simp only [fwLoop, hc, hrest, Option.map_some, List.range'_succ, List.map_cons]
    simp [hc]

lemma fwLoop_gap (m : ℤ → Option Candle) (ts : ℤ) :
    ∀ (n k j : ℕ), k ≤ j → j < k + n → m (ts + 3600 * (j : ℤ)) = none →
      fwLoop m ts k n = none := by
  intro n
  induction n with
  | zero => intro k j h1 h2 _; omega
  | succ n ih =>
    intro k j h1 h2 hnone
    by_cases hjk : j = k
    · subst hjk
      simp [fwLoop, hnone]
    · cases hc : m (ts + 3600 * (k : ℤ)) with
      | none => simp [fwLoop, hc]
      | some c =>
        have := ih (k + 1) j (by omega) (by omega) hnone
        simp [fwLoop, hc, this]

/-- C1: for horizon `H ≥ 1`, the forward-window stitcher returns exactly the
`H` bars stored at `entry_ts + 3600*k` for `k = 1..H` in increasing order
when all those keys are present; it returns `none` as soon as any single one
is absent; and in that case (at the pipeline's fixed `H = 96`) the per-
snapshot pipeline step produces no label row at all. -/
theorem forward_window_all_or_nothing (master : ℤ → Option Candle) (ts : ℤ)
    (H : ℕ) (hH : 1 ≤ H) :
    ((∀ k : ℕ, 1 ≤ k → k ≤ H → (master (ts + 3600 * (k : ℤ))).isSome) →
      forward_window master ts H =
        some ((List.range' 1 H).map fun k => (master (ts + 3600 * (k : ℤ))).getD []))
    ∧ (∀ k : ℕ, 1 ≤ k → k ≤ H → master (ts + 3600 * (k : ℤ)) = none →
      forward_window master ts H = none)
    ∧ (∀ (candles : List Candle) (ec : ℚ),
        get_entry_ts_and_close candles = some (ts, ec) →
        forward_window master ts 96 = none →
        label_row_for_snapshot master candles = none) := by
  refine ⟨?_, ?_, ?_⟩
  · intro h
    exact fwLoop_all_present master ts H 1 (fun j hj1 hj2 => h j hj1 (by omega))
  · intro k hk1 hk2 hnone
    exact fwLoop_gap master ts H 1 k hk1 (by omega) hnone
  · intro candles ec he hfw
    simp [label_row_for_snapshot, he, hfw]

/-- Witness for C1: a timeline missing hour 1 after the entry stitches to
`none` at horizon 2. -/
theorem forward_window_all_or_nothing_witness :
    forward_window (fun t => if t = 7200 then some [7200, 1, 1, 1, 1, 1] else none) 0 2 =
      none :=
  (forward_window_all_or_nothing
      (fun t => if t = 7200 then some [7200, 1, 1, 1, 1, 1] else none) 0 2
      (by norm_num)).2.1 1 (by norm_num) (by norm_num) (by norm_num)

lemma foldl_insert_lookup : ∀ (l : List Candle) (m : ℤ → Option Candle) (t : ℤ),
    (l.foldl insertCandle m) t =
      match m t with
      | some c => some c
      | none =>
        (l.filter fun c => decide (6 ≤ c.length)).find? fun c => decide (tsOf c = t) := by
  intro l
  induction l with
  | nil =>
    intro m t
    cases hmt : m t <;> simp [hmt]
  | cons c cs ih =>
    intro m t
    show (cs.foldl insertCandle (insertCandle m c)) t = _
    rw [ih]
    by_cases hlen : c.length < 6
    · have h6 : ¬ (6 ≤ c.length) := by omega
      simp only [insertCandle, if_pos hlen, List.filter_cons, decide_eq_true_eq, h6,
        if_false]
    · have h6 : (6 ≤ c.length) := by omega
      simp only [List.filter_cons, decide_eq_true_eq, h6, if_true]
      by_cases hin : (m (tsOf c)).isSome
      · simp only [insertCandle, if_neg hlen, if_pos hin]
        cases hmt : m t with
        | some d => rfl
        | none =>
          have hne : tsOf c ≠ t := by
            intro hEq
            rw [hEq, hmt] at hin
            simp at hin
          rw [List.find?_cons_of_neg _ (by simpa using hne)]
      · have hmc : m (tsOf c) = none := Option.not_isSome_iff_eq_none.mp hin
        simp only [insertCandle, if_neg hlen, if_neg hin]
        by_cases ht : t = tsOf c
        · subst ht
          simp [hmc]
        · simp only [if_neg ht]
          cases hmt : m t with
          | some d => rfl
          | none =>
            rw [List.find?_cons_of_neg _ (by simpa using fun h => ht h.symm)]

lemma foldl_snaps_flatten : ∀ (snaps : List SnapshotRec) (m : ℤ → Option Candle),
    snaps.foldl (fun m s => s.candles.foldl insertCandle m) m =
      ((snaps.map SnapshotRec.candles).flatten).foldl insertCandle m := by
  intro snaps
  induction snaps with
  | nil => intro m; rfl
  | cons s rest ih =>
    intro m
    simp only [List.foldl_cons, List.map_cons, List.flatten_cons, List.foldl_append]
    exact ih _

lemma build_master_lookup (snaps : List SnapshotRec) (t : ℤ) :
    build_master_candle_map snaps t =
      (((snaps.map SnapshotRec.candles).flatten.filter fun c => decide (6 ≤ c.length)).find?
        fun c => decide (tsOf c = t)) := by
  unfold build_master_candle_map
  rw [foldl_snaps_flatten, foldl_insert_lookup]

/-- C6: the master candle map sends every timestamp to the first
well-formed bar (at least 6 fields) carrying that timestamp in the
concatenated snapshot stream — later duplicates never overwrite and
malformed bars are dropped without affecting other timestamps. -/
theorem master_map_first_seen_wins (snaps : List SnapshotRec) (t : ℤ) :
    build_master_candle_map snaps t =
      (((snaps.map SnapshotRec.candles).flatten.filter fun c => decide (6 ≤ c.length)).find?
        fun c => decide (tsOf c = t)) :=
  build_master_lookup snaps t

/-- C8 (amended): when the snapshot's last candle is also well formed for
the timeline builder (at least 6 fields, not just the 5 the entry resolver
checks), a successfully resolved `entry_ts` is a key of the master map
built from any snapshot collection containing that snapshot. -/
theorem entry_ts_in_master_of_wellformed (snaps : List SnapshotRec) (s : SnapshotRec)
    (hs : s ∈ snaps) (last : Candle) (hlast : s.candles.getLast? = some last)
    (h6 : 6 ≤ last.length) (ts : ℤ) (ec : ℚ)
    (he : get_entry_ts_and_close s.candles = some (ts, ec)) :
    (build_master_candle_map snaps ts).isSome := by
  have hts : tsOf last = ts := by
    simp only [get_entry_ts_and_close, hlast] at he
    rw [if_neg (by omega)] at he
    simp only [Option.some_inj, Prod.mk.injEq] at he
    exact he.1
  rw [build_master_lookup]
  simp only [List.find?_isSome]
  refine ⟨last, ?_, by simp [hts]⟩
  apply List.mem_filter.mpr
  refine ⟨?_, by simpa using h6⟩
  apply List.mem_flatten.mpr
  exact ⟨s.candles, List.mem_map_of_mem SnapshotRec.candles hs,
    List.mem_of_getLast?_eq_some hlast⟩

/-- Witness for C8 (amended): a snapshot whose single (and last) candle has
6 fields puts its entry timestamp into the master map. -/
theorem entry_ts_in_master_of_wellformed_witness :
    (build_master_candle_map [⟨none, "g", [[0, 1, 2, 3, 4, 5]]⟩] 0).isSome := by
  apply entry_ts_in_master_of_wellformed
    [⟨none, "g", [[0, 1, 2, 3, 4, 5]]⟩] ⟨none, "g", [[0, 1, 2, 3, 4, 5]]⟩
    (List.mem_singleton.mpr rfl) [0, 1, 2, 3, 4, 5] (by simp) (by simp)
    0 4
  simp [get_entry_ts_and_close, pyInt]

/-- C8 counterexample: a snapshot whose last bar has exactly 5 fields
resolves an entry point, yet its `entry_ts` is not a key of the timeline
built from a collection containing that snapshot — the timeline builder
discards bars with fewer than 6 fields. -/
theorem entry_ts_not_in_master_cex :
    get_entry_ts_and_close [[0, 1, 2, 3, 4]] = some (0, 4)
    ∧ (⟨none, "h", [[0, 1, 2, 3, 4]]⟩ : SnapshotRec) ∈
        [(⟨none, "h", [[0, 1, 2, 3, 4]]⟩ : SnapshotRec)]
    ∧ build_master_candle_map [⟨none, "h", [[0, 1, 2, 3, 4]]⟩] 0 = none := by
  refine ⟨?_, List.mem_singleton.mpr rfl, ?_⟩
  · simp [get_entry_ts_and_close, pyInt]
  · rw [build_master_lookup]
    simp

/-- C7: when every snapshot's `(published_at, source file)` key is already
among the keys read from the existing ledger, a re-run appends no rows,
counts every snapshot as a duplicate, and leaves any ledger unchanged. -/
theorem rerun_adds_nothing (master : ℤ → Option Candle)
    (existing : List (Option String × String)) (snaps : List SnapshotRec)
    (hall : ∀ s ∈ snaps, (s.pub, s.file) ∈ existing) :
    (run_main master existing snaps).1 = []
    ∧ (run_main master existing snaps).2.1 = snaps.length
    ∧ ∀ ledger : List LabelRow, ledger ++ (run_main master existing snaps).1 = ledger := by
  induction snaps with
  | nil => exact ⟨rfl, rfl, fun l => List.append_nil l⟩
  | cons s rest ih =>
    have hk : (s.pub, s.file) ∈ existing := hall s (List.mem_cons_self _ _)
    have ihh := ih (fun x hx => hall x (List.mem_cons_of_mem _ hx))
    refine ⟨?_, ?_, ?_⟩
    · simp [run_main, hk, ihh.1]
    · simp [run_main, hk, ihh.2.1]
    · intro ledger
      simp [run_main, hk, ihh.1]

/-- Witness for C7 on a one-snapshot run whose key is already in the
ledger key set. -/
theorem rerun_adds_nothing_witness :
    (run_main (fun _ => none) [(some "a", "f")] [⟨some "a", "f", []⟩]).1 = []
    ∧ (run_main (fun _ => none) [(some "a", "f")] [⟨some "a", "f", []⟩]).2.1 =
        ([(⟨some "a", "f", []⟩ : SnapshotRec)] : List SnapshotRec).length := by
  have hall : ∀ s ∈ ([⟨some "a", "f", []⟩] : List SnapshotRec),
      (s.pub, s.file) ∈ [((some "a" : Option String), "f")] := by
    intro s hs
    rw [List.mem_singleton] at hs
    subst hs
    exact List.mem_singleton.mpr rfl
  exact ⟨(rerun_adds_nothing (fun _ => none) _ _ hall).1,
    (rerun_adds_nothing (fun _ => none) _ _ hall).2.1⟩

/-- C4: for a fixed threshold column and any two configured horizons
`h1 < h2`, the aggregator's hit probability is non-decreasing: `n_total`
ignores the horizon and the hit test `parsed t ≤ h` is monotone in `h`. -/
theorem p_hit_monotone_in_horizon (parse : String → Option ℤ)
    (rows : List (Option String)) (h1 h2 : ℕ) (hm1 : h1 ∈ HORIZONS)
    (hm2 : h2 ∈ HORIZONS) (hlt : h1 < h2) :
    p_hit_agg parse rows h1 ≤ p_hit_agg parse rows h2 := by
  have hhit : n_hit_agg parse rows h1 ≤ n_hit_agg parse rows h2 := by
    unfold n_hit_agg
    rw [← List.countP_eq_length_filter, ← List.countP_eq_length_filter]
    apply List.countP_mono_left
    intro r _ hr
    cases r with
    | none => simp [hit_pred] at hr
    | some s =>
      simp only [hit_pred] at hr ⊢
      cases hp : parse s with
      | none => simp [hp] at hr
      | some t =>
        simp only [hp, decide_eq_true_eq] at hr ⊢
        omega
  unfold p_hit_agg
  by_cases h0 : n_total_agg rows = 0
  · simp [h0]
  · rw [if_neg h0, if_neg h0]
    have hpos : (0 : ℚ) < (n_total_agg rows : ℚ) := by
      exact_mod_cast Nat.pos_of_ne_zero h0
    exact (div_le_div_iff_of_pos_right hpos).mpr (by exact_mod_cast hhit)

/-- Witness for C4 on three rows (one hit by hour 3, one by hour 20, one
with the column missing). -/
theorem p_hit_monotone_in_horizon_witness :
    p_hit_agg (fun s => (s.toNat?).map Int.ofNat) [some "3", some "20", none] 12 ≤
      p_hit_agg (fun s => (s.toNat?).map Int.ofNat) [some "3", some "20", none] 24 :=
  p_hit_monotone_in_horizon (fun s => (s.toNat?).map Int.ofNat)
    [some "3", some "20", none] 12 24 (by decide) (by decide) (by decide)

lemma one_le_of_mem_HORIZONS {h : ℕ} (hm : h ∈ HORIZONS) : 1 ≤ h := by
  simp only [HORIZONS, List.mem_cons, List.not_mem_nil, or_false] at hm
  rcases hm with rfl | rfl | rfl | rfl | rfl | rfl | rfl | rfl <;> norm_num

/-- C3 (amended): with a nonnegative entry price, `max_up_pct` and
`range_pct` are non-decreasing across configured horizons `h1 < h2` taken
as prefixes of one 96-hour window (for a negative entry price the
percent-change conversion reverses the order, see the counterexample). -/
theorem continuous_labels_monotone (ec : ℚ) (hec : 0 ≤ ec) (fwd96 : List Candle)
    (hlen : fwd96.length = 96) (h1 h2 : ℕ) (hm1 : h1 ∈ HORIZONS) (hm2 : h2 ∈ HORIZONS)
    (hlt : h1 < h2) :
    (compute_continuous_labels ec (fwd96.take h1)).max_up_pct ≤
      (compute_continuous_labels ec (fwd96.take h2)).max_up_pct
    ∧ (compute_continuous_labels ec (fwd96.take h1)).range_pct ≤
      (compute_continuous_labels ec (fwd96.take h2)).range_pct := by
  have h1pos : 1 ≤ h1 := one_le_of_mem_HORIZONS hm1
  have hle : h1 ≤ h2 := Nat.le_of_lt hlt
  have hneH : (fwd96.map fun c => c.getD 2 0).take h1 ≠ [] := by
    intro hnil
    have hl := congrArg List.length hnil
    rw [List.length_take, List.length_map, hlen] at hl
    simp at hl
    omega
  have hneL : (fwd96.map fun c => c.getD 3 0).take h1 ≠ [] := by
    intro hnil
    have hl := congrArg List.length hnil
    rw [List.length_take, List.length_map, hlen] at hl
    simp at hl
    omega
  have hmax := listMax_take_mono (fwd96.map fun c => c.getD 2 0) h1 h2 hle hneH
  have hmin := listMin_take_mono (fwd96.map fun c => c.getD 3 0) h1 h2 hle hneL
  constructor
  · simp only [compute_continuous_labels, List.map_take]
    exact round4_mono (pct_change_mono hec hmax)
  · simp only [compute_continuous_labels, List.map_take]
    by_cases h0 : ec = 0
    · simp [h0]
    · have hecpos : 0 < ec := lt_of_le_of_ne hec (Ne.symm h0)
      rw [if_neg h0, if_neg h0]
      apply round4_mono
      have hnum : listMax ((fwd96.map fun c => c.getD 2 0).take h1) -
          listMin ((fwd96.map fun c => c.getD 3 0).take h1) ≤
          listMax ((fwd96.map fun c => c.getD 2 0).take h2) -
          listMin ((fwd96.map fun c => c.getD 3 0).take h2) := by linarith
      have hdiv := (div_le_div_iff_of_pos_right hecpos).mpr hnum
      linarith

/-- Witness for C3 (amended) on a flat window with entry price 1. -/
theorem continuous_labels_monotone_witness :
    (compute_continuous_labels 1 ((List.replicate 96 ([0, 0, 1, 0, 1, 0] : Candle)).take 12)).max_up_pct ≤
      (compute_continuous_labels 1 ((List.replicate 96 ([0, 0, 1, 0, 1, 0] : Candle)).take 24)).max_up_pct
    ∧ (compute_continuous_labels 1 ((List.replicate 96 ([0, 0, 1, 0, 1, 0] : Candle)).take 12)).range_pct ≤
      (compute_continuous_labels 1 ((List.replicate 96 ([0, 0, 1, 0, 1, 0] : Candle)).take 24)).range_pct :=
  continuous_labels_monotone 1 (by norm_num) (List.replicate 96 [0, 0, 1, 0, 1, 0])
    (by simp) 12 24 (by decide) (by decide) (by decide)

lemma foldl_max_self (b : ℚ) : ∀ (n : ℕ), (List.replicate n b).foldl max b = b := by
  intro n
  induction n with
  | zero => rfl
  | succ n ih =>
    rw [List.replicate_succ, List.foldl_cons, max_self]
    exact ih

lemma foldl_max_replicate (b : ℚ) : ∀ (n : ℕ) (c : ℚ),
    (List.replicate n b).foldl max c = if n = 0 then c else max c b := by
  intro n
  induction n with
  | zero => intro c; rfl
  | succ n ih =>
    intro c
    rw [List.replicate_succ, List.foldl_cons, ih (max c b)]
    by_cases hn : n = 0
    · simp [hn]
    · simp [hn, max_assoc, max_self]

lemma listMax_replicate (n : ℕ) (x : ℚ) : listMax (List.replicate (n + 1) x) = x := by
  rw [List.replicate_succ]
  show (List.replicate n x).foldl max x = x
  exact foldl_max_self x n

/-- C3 counterexample: with `entry_close = -1` over a legal 96-hour window
(`12 ∈ HORIZONS`, `24 ∈ HORIZONS`, `12 < 24`), `max_up_pct` at horizon 12
exceeds `max_up_pct` at horizon 24 — the claim without a sign condition on
the entry price is false. -/
theorem continuous_labels_monotone_cex :
    flatThenJumpWindow.length = 96
    ∧ 12 ∈ HORIZONS ∧ 24 ∈ HORIZONS ∧ 12 < 24
    ∧ ¬ ((compute_continuous_labels (-1) (flatThenJumpWindow.take 12)).max_up_pct ≤
        (compute_continuous_labels (-1) (flatThenJumpWindow.take 24)).max_up_pct) := by
  have hr200 : round4 (-200 : ℚ) = -200 := by
    rw [round4, show ((-200 : ℚ) * 10000) = ((-2000000 : ℤ) : ℚ) by norm_num,
      round_intCast]
    norm_num
  have hr300 : round4 (-300 : ℚ) = -300 := by
    rw [round4, show ((-300 : ℚ) * 10000) = ((-3000000 : ℤ) : ℚ) by norm_num,
      round_intCast]
    norm_num
  have ht12 : flatThenJumpWindow.take 12 = List.replicate 12 [0, 0, 1, 0, 1, 0] :=
    List.take_left' (List.length_replicate _ _)
  have ht24 : flatThenJumpWindow.take 24 =
      List.replicate 12 ([0, 0, 1, 0, 1, 0] : Candle) ++ List.replicate 12 [0, 0, 2, 0, 2, 0] := by
    unfold flatThenJumpWindow
    rw [show (24 : ℕ) = (List.replicate 12 ([0, 0, 1, 0, 1, 0] : Candle)).length + 12 by
      rw [List.length_replicate]]
    rw [List.take_append, List.take_replicate]
    rfl
  have e12 : (compute_continuous_labels (-1) (flatThenJumpWindow.take 12)).max_up_pct = -200 := by
    rw [ht12]
    simp only [compute_continuous_labels]
    rw [List.map_replicate]
    rw [show (([0, 0, 1, 0, 1, 0] : Candle).getD 2 0) = 1 from rfl]
    rw [show (12 : ℕ) = 11 + 1 from rfl, listMax_replicate]
    rw [show pct_change 1 (-1) = -200 by norm_num [pct_change]]
    exact hr200
  have e24 : (compute_continuous_labels (-1) (flatThenJumpWindow.take 24)).max_up_pct = -300 := by
    rw [ht24]
    simp only [compute_continuous_labels]
    rw [List.map_append, List.map_replicate, List.map_replicate]
    rw [show (([0, 0, 1, 0, 1, 0] : Candle).getD 2 0) = 1 from rfl]
    rw [show (([0, 0, 2, 0, 2, 0] : Candle).getD 2 0) = 2 from rfl]
    have hlm : listMax (List.replicate 12 (1 : ℚ) ++ List.replicate 12 (2 : ℚ)) = 2 := by
      rw [show (12 : ℕ) = 11 + 1 from rfl, List.replicate_succ, List.cons_append]
      show (List.replicate 11 (1 : ℚ) ++ List.replicate (11 + 1) (2 : ℚ)).foldl max 1 = 2
      rw [List.foldl_append, foldl_max_replicate, foldl_max_replicate]
      norm_num [max_def]
    rw [hlm]
    rw [show pct_change 2 (-1) = -300 by norm_num [pct_change]]
    exact hr300
  refine ⟨?_, by decide, by decide, by decide, ?_⟩
  · unfold flatThenJumpWindow
    rw [List.length_append, List.length_replicate, List.length_replicate]
  · rw [e12, e24]
    norm_num
